import Mathlib

/-!
Formal model of the contracting state-access layer.

The definitions below are a shallow embedding of
`contracting/db/new_driver.py` (the `Driver` / `CacheDriver` /
`ContractDriver` classes) and `src/contracting/storage/orm.py`
(the `Variable`, `Hash`, `ForeignVariable`, `ForeignHash` and
`LogEvent` classes).  Python dictionaries are modelled as
insertion-ordered association lists, Python objects stored in state as
the closed `Val` type (the distinguished Python `None` is `Val.none`),
and exceptions as `Except` values.
-/

/-- A storable Python object.  `Val.none` models Python `None` (the
distinguished absence marker).  Floats and fixed-precision decimals carry
their decimal string form, which is what `ContractingDecimal(str(x))`
consumes. -/
inductive Val where
  | none : Val
  | int (n : Int) : Val
  | str (s : String) : Val
  | bool (b : Bool) : Val
  | float (s : String) : Val
  | dec (s : String) : Val
deriving DecidableEq, Repr

/-- Association list with string keys: the model of a Python `dict`
(insertion-ordered, unique keys in practice). -/
abbrev KVList := List (String × Val)

/-- `dict` lookup: first entry with the given key. -/
def alLookup : KVList → String → Option Val
  | [], _ => Option.none
  | p :: rest, k => if p.1 = k then Option.some p.2 else alLookup rest k

/-- `dict` assignment `d[k] = v`: update the existing entry in place
(keeping its position, as Python dicts do) or append a new entry. -/
def alInsert : KVList → String → Val → KVList
  | [], k, v => [(k, v)]
  | p :: rest, k, v => if p.1 = k then (k, v) :: rest else p :: alInsert rest k v

/-- `dict` deletion `del d[k]`: drop every entry with the given key. -/
def alErase : KVList → String → KVList
  | [], _ => []
  | p :: rest, k => if p.1 = k then alErase rest k else p :: alErase rest k

theorem alLookup_alInsert_self (l : KVList) (k : String) (v : Val) :
    alLookup (alInsert l k v) k = Option.some v := by
  induction l with
  | nil => simp [alInsert, alLookup]
  | cons p rest ih =>
    by_cases h : p.1 = k
    · simp [alInsert, h, alLookup]
    · simp [alInsert, h, alLookup, ih]

theorem alLookup_alInsert_ne (l : KVList) (k q : String) (v : Val) (h : q ≠ k) :
    alLookup (alInsert l k v) q = alLookup l q := by
  have hkq : k ≠ q := Ne.symm h
  induction l with
  | nil => simp [alInsert, alLookup, hkq]
  | cons p rest ih =>
    by_cases hp : p.1 = k
    · subst hp
      simp [alInsert, alLookup, hkq]
    · simp only [alInsert, if_neg hp]
      by_cases hq : p.1 = q
      · simp [alLookup, hq]
      · simp [alLookup, hq, ih]

theorem alLookup_alErase_self (l : KVList) (k : String) :
    alLookup (alErase l k) k = Option.none := by
  induction l with
  | nil => simp [alErase, alLookup]
  | cons p rest ih =>
    by_cases hp : p.1 = k
    · simpa [alErase, hp] using ih
    · simpa [alErase, hp, alLookup] using ih

theorem alLookup_alErase_ne (l : KVList) (k q : String) (h : q ≠ k) :
    alLookup (alErase l k) q = alLookup l q := by
  induction l with
  | nil => simp [alErase, alLookup]
  | cons p rest ih =>
    by_cases hp : p.1 = k
    · subst hp
      have hq : p.1 ≠ q := fun hh => h hh.symm
      simpa [alErase, alLookup, hq] using ih
    · by_cases hq : p.1 = q
      · simp [alErase, hp, alLookup, hq, h]
      · simpa [alErase, hp, alLookup, hq] using ih

theorem alLookup_append (l₁ l₂ : KVList) (q : String) :
    alLookup (l₁ ++ l₂) q =
      match alLookup l₁ q with
      | Option.some v => Option.some v
      | Option.none => alLookup l₂ q := by
  induction l₁ with
  | nil => simp [alLookup]
  | cons p rest ih =>
    by_cases hp : p.1 = q
    · simp [alLookup, hp]
    · simp [alLookup, hp, ih]

/-- Python `str.startswith`: character-level prefix test. -/
def strStartsWith (pfx s : String) : Bool :=
  pfx.data.isPrefixOf s.data

/-- `Driver.get` (`new_driver.py` lines 14-17): fetch and decode; an
absent key decodes to Python `None`.  The byte codec is an external
collaborator (spec section 6) required to round-trip deterministically, so
the store is modelled directly at the decoded-value level. -/
def Driver.get (store : KVList) (k : String) : Val :=
  match alLookup store k with
  | Option.some v => v
  | Option.none => Val.none

/-- `Driver.set` (`new_driver.py` lines 19-25): writing `None` deletes the
key, any other value is stored. -/
def Driver.set (store : KVList) (k : String) (v : Val) : KVList :=
  if v = Val.none then alErase store k else alInsert store k v

/-- `Driver.iter` (`new_driver.py` lines 30-47) with no length limit: the
keys of the store that start with the given string.  The backing store
reports keys only, not values. -/
def Driver.iterKeys (store : KVList) (pfx : String) : List String :=
  (store.map Prod.fst).filter (fun k => strStartsWith pfx k)

/-- The state owned by one `CacheDriver` (`new_driver.py` lines 69-75)
together with the backing `Driver` store it wraps.  `cache` may hold
`Val.none` markers (a fetched absent key is cached as `None`). -/
structure CacheDriver where
  store : KVList
  cache : KVList
  reads : List String
  pending_writes : KVList
deriving DecidableEq, Repr

/-- Python `self.cache.get(key)`: `dict.get` returns `None` both for an
absent key and for a key stored with value `None`. -/
def cacheGetPy (c : KVList) (k : String) : Val :=
  match alLookup c k with
  | Option.some v => v
  | Option.none => Val.none

/-- `set`-style insertion into the read set (`self.reads.add(key)`). -/
def readsAdd (r : List String) (k : String) : List String :=
  if k ∈ r then r else r ++ [k]

/-- `CacheDriver.get` (`new_driver.py` lines 77-94).  Returns the value,
the successor state, and whether a backing-store fetch
(`self.driver.get`) was performed.  The metering hook `rt.deduct_read` is
an external collaborator and not part of the state. -/
def CacheDriver.get (s : CacheDriver) (k : String) : Val × CacheDriver × Bool :=
  let v := cacheGetPy s.cache k
  if v = Val.none then
    let dv := Driver.get s.store k
    (dv,
     { s with cache := alInsert s.cache k dv, reads := readsAdd s.reads k },
     true)
  else
    (v, s, false)

/-- `CacheDriver.set` (`new_driver.py` lines 96-99): update the cache and
stage the pending write; the backing store is untouched.  The metering
hook `rt.deduct_write` is external. -/
def CacheDriver.set (s : CacheDriver) (k : String) (v : Val) : CacheDriver :=
  { s with
    cache := alInsert s.cache k v,
    pending_writes := alInsert s.pending_writes k v }

/-- One step of `CacheDriver.commit`: apply a single pending write through
`Driver.set`. -/
def commitStep (store : KVList) (kv : String × Val) : KVList :=
  Driver.set store kv.1 kv.2

/-- `CacheDriver.commit` (`new_driver.py` lines 101-103): apply every
pending write to the backing store in insertion order; cache, read set
and pending-write set are left untouched. -/
def CacheDriver.commit (s : CacheDriver) : CacheDriver :=
  { s with store := s.pending_writes.foldl commitStep s.store }

/-- `CacheDriver.clear_pending_state` (`new_driver.py` lines 105-108). -/
def CacheDriver.clear_pending_state (s : CacheDriver) : CacheDriver :=
  { s with cache := [], reads := [], pending_writes := [] }

/-- `ContractDriver.items` (`new_driver.py` lines 112-128): cache entries
under the prefix first (uncommitted view), then every backing-store key
under the prefix not already taken from cache, fetched through the raw
`Driver.get`.  No mutation of the driver state occurs. -/
def ContractDriver.items (s : CacheDriver) (pfx : String) : KVList :=
  let fromCache := s.cache.filter (fun kv => strStartsWith pfx kv.1)
  let cacheKeys := fromCache.map Prod.fst
  let extra := (Driver.iterKeys s.store pfx).filter (fun k => ! cacheKeys.contains k)
  fromCache ++ extra.map (fun k => (k, Driver.get s.store k))

/-- `ContractDriver.values` (`new_driver.py` lines 130-131). -/
def ContractDriver.values (s : CacheDriver) (pfx : String) : List Val :=
  (ContractDriver.items s pfx).map Prod.snd

theorem cacheGetPy_alInsert_self (c : KVList) (k : String) (v : Val) :
    cacheGetPy (alInsert c k v) k = v := by
  simp [cacheGetPy, alLookup_alInsert_self]

theorem alLookup_eq_none_iff (l : KVList) (q : String) :
    alLookup l q = Option.none ↔ q ∉ l.map Prod.fst := by
  induction l with
  | nil => simp [alLookup]
  | cons p rest ih =>
    by_cases hp : p.1 = q
    · simp [alLookup, hp]
    · simp [alLookup, hp, ih, Ne.symm hp]

theorem alLookup_filterKey (l : KVList) (p : String → Bool) (q : String) :
    alLookup (l.filter (fun kv => p kv.1)) q =
      if p q then alLookup l q else Option.none := by
  induction l with
  | nil => simp [alLookup]
  | cons e rest ih =>
    by_cases he : p e.1 = true
    · rw [List.filter_cons_of_pos (by simpa using he)]
      by_cases hq : e.1 = q
      · subst hq
        simp [alLookup, he]
      · simp [alLookup, hq, ih]
    · rw [List.filter_cons_of_neg (by simpa using he)]
      by_cases hq : e.1 = q
      · subst hq
        simp [alLookup, he, ih]
      · simp [alLookup, hq, ih]

theorem alLookup_mapSelf (ks : List String) (f : String → Val) (q : String) :
    alLookup (ks.map (fun k => (k, f k))) q =
      if q ∈ ks then Option.some (f q) else Option.none := by
  induction ks with
  | nil => simp [alLookup]
  | cons k rest ih =>
    by_cases hk : k = q
    · subst hk
      simp [alLookup]
    · simp [alLookup, hk, ih, Ne.symm hk]

theorem alLookup_driverSet (st : KVList) (k : String) (v : Val) (q : String) :
    alLookup (Driver.set st k v) q =
      if k = q then (if v = Val.none then Option.none else Option.some v)
      else alLookup st q := by
  by_cases hv : v = Val.none
  · by_cases hk : k = q
    · subst hk
      simp [Driver.set, hv, alLookup_alErase_self]
    · simp [Driver.set, hv, hk, alLookup_alErase_ne st k q (fun hh => hk hh.symm)]
  · by_cases hk : k = q
    · subst hk
      simp [Driver.set, hv, alLookup_alInsert_self]
    · simp [Driver.set, hv, hk, alLookup_alInsert_ne st k q v (fun hh => hk hh.symm)]

/-- Final value of a key after applying a write list in order: the last
write wins; `Val.none` means deletion. -/
theorem alLookup_foldl_commitStep (ws : List (String × Val)) (st : KVList) (q : String) :
    alLookup (ws.foldl commitStep st) q =
      match alLookup ws.reverse q with
      | Option.some v => if v = Val.none then Option.none else Option.some v
      | Option.none => alLookup st q := by
  induction ws generalizing st with
  | nil => simp [alLookup]
  | cons w rest ih =>
    rw [List.foldl_cons, ih, List.reverse_cons, alLookup_append]
    cases h : alLookup rest.reverse q with
    | some v => rfl
    | none =>
      simp only [commitStep, alLookup_driverSet, alLookup]
      by_cases hk : w.1 = q
      · simp [hk]
      · simp [hk]

/-- C1: read-your-own-writes.  For every key and every storable value
(Python `None` is the absence marker, not a storable value: writing it is
defined as deletion by the spec data model), a `CacheDriver.get` issued
after `CacheDriver.set` of the same key returns the written value,
performs no backing-store fetch, and leaves the driver state unchanged. -/
theorem C1_read_your_own_writes (s : CacheDriver) (k : String) (v : Val)
    (h : v ≠ Val.none) :
    CacheDriver.get (CacheDriver.set s k v) k = (v, CacheDriver.set s k v, false) := by
  have hc : cacheGetPy (CacheDriver.set s k v).cache k = v := by
    simp [CacheDriver.set, cacheGetPy_alInsert_self]
  simp [CacheDriver.get, hc, h]

theorem C1_read_your_own_writes_witness :
    Val.int 5 ≠ Val.none ∧
    CacheDriver.get (CacheDriver.set ⟨[], [], [], []⟩ "currency.balances:stu" (Val.int 5))
        "currency.balances:stu" =
      (Val.int 5, CacheDriver.set ⟨[], [], [], []⟩ "currency.balances:stu" (Val.int 5), false) :=
  ⟨by decide,
   C1_read_your_own_writes ⟨[], [], [], []⟩ "currency.balances:stu" (Val.int 5) (by decide)⟩

/-- C2 counterexample: the claim says that once a `get` has fetched a key
— whatever the store returned, including absence — every later `get` of
the same key in the same context is served from the cache only.  On a key
absent from the backing store, the first `get` fetches (third component
`true`) and the second `get` fetches again, because the cached `None`
marker is not recognised as a cache hit. -/
theorem C2_at_most_one_fetch_counterexample :
    (CacheDriver.get ⟨[], [], [], []⟩ "k").2.2 = true ∧
    (CacheDriver.get (CacheDriver.get ⟨[], [], [], []⟩ "k").2.1 "k").2.2 = true :=
  ⟨rfl, rfl⟩

/-- C2 amended: at-most-one backing-store fetch per key holds for keys
whose first `get` resolves a non-none value — after such a `get`, a
second `get` of the same key performs no backing-store fetch and returns
the same value.  When the fetch resolves `none` (absent key), the cached
`none` marker is not treated as a hit and later gets fetch again. -/
theorem C2_at_most_one_fetch_amended (s : CacheDriver) (k : String)
    (h : (CacheDriver.get s k).1 ≠ Val.none) :
    (CacheDriver.get (CacheDriver.get s k).2.1 k).2.2 = false ∧
    (CacheDriver.get (CacheDriver.get s k).2.1 k).1 = (CacheDriver.get s k).1 := by
  by_cases hc : cacheGetPy s.cache k = Val.none
  · have h1 : CacheDriver.get s k =
        (Driver.get s.store k,
         { s with cache := alInsert s.cache k (Driver.get s.store k),
                  reads := readsAdd s.reads k }, true) := by
      simp [CacheDriver.get, hc]
    have hdv : Driver.get s.store k ≠ Val.none := by
      intro hh
      apply h
      rw [h1, hh]
    have hc2 : cacheGetPy (alInsert s.cache k (Driver.get s.store k)) k =
        Driver.get s.store k := cacheGetPy_alInsert_self _ _ _
    rw [h1]
    constructor
    · simp [CacheDriver.get, hc2, hdv]
    · simp [CacheDriver.get, hc2, hdv]
  · have h1 : CacheDriver.get s k = (cacheGetPy s.cache k, s, false) := by
      simp [CacheDriver.get, hc]
    rw [h1]
    constructor
    · simp [CacheDriver.get, hc]
    · simp [CacheDriver.get, hc]

theorem C2_at_most_one_fetch_amended_witness :
    (CacheDriver.get ⟨[("k", Val.int 7)], [], [], []⟩ "k").1 ≠ Val.none ∧
    ((CacheDriver.get (CacheDriver.get ⟨[("k", Val.int 7)], [], [], []⟩ "k").2.1 "k").2.2 = false ∧
     (CacheDriver.get (CacheDriver.get ⟨[("k", Val.int 7)], [], [], []⟩ "k").2.1 "k").1 =
       (CacheDriver.get ⟨[("k", Val.int 7)], [], [], []⟩ "k").1) :=
  ⟨by decide, C2_at_most_one_fetch_amended ⟨[("k", Val.int 7)], [], [], []⟩ "k" (by decide)⟩

theorem mem_map_fst_filter {l : KVList} {p : String × Val → Bool} {q : String}
    (h : q ∈ (l.filter p).map Prod.fst) : q ∈ l.map Prod.fst := by
  rcases List.mem_map.mp h with ⟨kv, hkv, hq⟩
  exact List.mem_map.mpr ⟨kv, (List.mem_filter.mp hkv).1, hq⟩

theorem mem_iterKeys_iff (store : KVList) (pfx q : String) :
    q ∈ Driver.iterKeys store pfx ↔
      q ∈ store.map Prod.fst ∧ strStartsWith pfx q = true := by
  simp [Driver.iterKeys, List.mem_filter]

/-- C3 counterexample: the claim requires every entry whose resolved
value is none to be excluded from the result of `items`.  With a cached
`none` marker for key `"k"` and an empty backing store, `items` returns
the entry `("k", Val.none)` instead of excluding it. -/
theorem C3_items_counterexample :
    ContractDriver.items ⟨[], [("k", Val.none)], [], []⟩ "" = [("k", Val.none)] := by
  decide

/-- C3 amended: `items` returns the merged uncommitted view — every cache
entry whose key starts with the prefix takes precedence over the backing
store, and every persisted key under the prefix not already resolved from
cache is fetched and added — but entries whose resolved value is none are
NOT excluded: a cached none marker appears in the result with value
none.  Stated as a complete lookup characterisation of the result. -/
theorem C3_items_merged_view_amended (s : CacheDriver) (pfx q : String) :
    alLookup (ContractDriver.items s pfx) q =
      if strStartsWith pfx q then
        match alLookup s.cache q with
        | Option.some v => Option.some v
        | Option.none => alLookup s.store q
      else Option.none := by
  unfold ContractDriver.items
  rw [alLookup_append, alLookup_filterKey, alLookup_mapSelf]
  by_cases hpq : strStartsWith pfx q = true
  · rw [if_pos hpq, if_pos hpq]
    cases hcq : alLookup s.cache q with
    | some v => rfl
    | none =>
      have hqc : q ∉ s.cache.map Prod.fst := (alLookup_eq_none_iff _ _).mp hcq
      have hqck : ((s.cache.filter (fun kv => strStartsWith pfx kv.1)).map Prod.fst).contains q = false := by
        rw [Bool.eq_false_iff]
        intro hcontains
        exact hqc (mem_map_fst_filter (List.elem_iff.mp hcontains))
      cases hsq : alLookup s.store q with
      | some v =>
        have hqs : q ∈ s.store.map Prod.fst := by
          by_contra hh
          rw [(alLookup_eq_none_iff _ _).mpr hh] at hsq
          exact Option.noConfusion hsq
        have hmem : q ∈ (Driver.iterKeys s.store pfx).filter
            (fun k => ! ((s.cache.filter (fun kv => strStartsWith pfx kv.1)).map Prod.fst).contains k) := by
          rw [List.mem_filter]
          exact ⟨(mem_iterKeys_iff _ _ _).mpr ⟨hqs, hpq⟩, by rw [hqck]; rfl⟩
        rw [if_pos hmem]
        simp [Driver.get, hsq]
      | none =>
        have hqs : q ∉ s.store.map Prod.fst := (alLookup_eq_none_iff _ _).mp hsq
        have hmem : q ∉ (Driver.iterKeys s.store pfx).filter
            (fun k => ! ((s.cache.filter (fun kv => strStartsWith pfx kv.1)).map Prod.fst).contains k) := by
          intro hh
          exact hqs ((mem_iterKeys_iff _ _ _).mp (List.mem_filter.mp hh).1).1
        rw [if_neg hmem]
  · rw [if_neg hpq, if_neg hpq]
    have hmem : q ∉ (Driver.iterKeys s.store pfx).filter
        (fun k => ! ((s.cache.filter (fun kv => strStartsWith pfx kv.1)).map Prod.fst).contains k) := by
      intro hh
      exact hpq ((mem_iterKeys_iff _ _ _).mp (List.mem_filter.mp hh).1).2
    rw [if_neg hmem]

/-- C4: `commit` applies every pending write to the backing store through
`Driver.set` in insertion order (that is literally the fold in the
definition, restated in the fourth conjunct), clears neither the cache
nor the read set nor the pending-write set, and a second `commit` with
the unchanged pending-write set yields persisted state identical to one
call (same lookup at every key). -/
theorem C4_commit_semantics_and_idempotence (s : CacheDriver) :
    (CacheDriver.commit s).cache = s.cache ∧
    (CacheDriver.commit s).reads = s.reads ∧
    (CacheDriver.commit s).pending_writes = s.pending_writes ∧
    (CacheDriver.commit s).store = s.pending_writes.foldl commitStep s.store ∧
    ∀ q, alLookup (CacheDriver.commit (CacheDriver.commit s)).store q =
      alLookup (CacheDriver.commit s).store q := by
  refine ⟨rfl, rfl, rfl, rfl, fun q => ?_⟩
  show alLookup (s.pending_writes.foldl commitStep
      (s.pending_writes.foldl commitStep s.store)) q =
    alLookup (s.pending_writes.foldl commitStep s.store) q
  rw [alLookup_foldl_commitStep, alLookup_foldl_commitStep]
  cases h : alLookup s.pending_writes.reverse q with
  | some v => simp [h]
  | none => simp [h]

/-- Python `c in s` for a single-character constant: character
membership.  Both key-space constants below are single characters, so
substring containment coincides with character containment. -/
def strContains (s : String) (c : Char) : Bool :=
  s.data.contains c

/-- `contracting.constants.DELIMITER`: the constants module is not under
the given sources; modelled from the spec (section 6, two distinct fixed
delimiter literals) with the literal pinned by the in-repo unit tests
(`tests/unit/test_orm.py`: keys look like `blah.scoob:stu:raghu`, and
`h['stu:123']` is rejected as an illegal delimiter). -/
def DELIMITER : Char := ':'

/-- `contracting.constants.INDEX_SEPARATOR`, modelled from the spec like
`DELIMITER`; the unit tests pin it to the dot joining contract and field
(`'{}{}{}'.format(contract, constants.INDEX_SEPARATOR, name)` =
`blah.scoob`). -/
def INDEX_SEPARATOR : Char := '.'

/-- `contracting.constants.MAX_KEY_SIZE`, modelled from the spec; the
unit tests reject a 1025-character coordinate. -/
def MAX_KEY_SIZE : Nat := 1024

/-- `contracting.constants.MAX_HASH_DIMENSIONS`, modelled from the spec;
the unit tests reject 18 dimensions and accept 3. -/
def MAX_HASH_DIMENSIONS : Nat := 16

/-- A scalar dimension of a `Hash` coordinate, or a Python slice object
(which the public indexing syntax can produce inside a tuple). -/
inductive Dim where
  | s (v : String) : Dim
  | i (n : Int) : Dim
  | slice : Dim
deriving DecidableEq, Repr

/-- Python `str()` of a dimension.  A slice stringifies as
`slice(None, None, None)`; the tuple branch of `_validate_key` rejects
slices before stringifying, the scalar branch stringifies them. -/
def dimStr : Dim → String
  | Dim.s v => v
  | Dim.i n => toString n
  | Dim.slice => "slice(None, None, None)"

/-- A coordinate passed to a `Hash` operation: a scalar or a tuple of
dimensions (Python argument overloading). -/
inductive Coord where
  | scalar (d : Dim) : Coord
  | tup (ds : List Dim) : Coord
deriving DecidableEq, Repr

/-- The exceptions this layer raises: `AssertionError` (validation),
`ReferenceError` (foreign mutation), and a plain `Exception` with a
message (`ForeignHash.clear`). -/
inductive OrmError where
  | assertionError (msg : String) : OrmError
  | referenceError : OrmError
  | plainException (msg : String) : OrmError
deriving DecidableEq, Repr

/-- One iteration of the tuple loop of `Hash._validate_key` (orm.py
lines 66-74): reject slices, stringify, reject an embedded delimiter or
separator, yield the string form. -/
def checkDim (d : Dim) : Except OrmError String :=
  match d with
  | Dim.slice => Except.error (OrmError.assertionError "Slices prohibited in hashes.")
  | _ =>
    let k := dimStr d
    if strContains k DELIMITER then
      Except.error (OrmError.assertionError "Illegal delimiter in key.")
    else if strContains k INDEX_SEPARATOR then
      Except.error (OrmError.assertionError "Illegal separator in key.")
    else Except.ok k

/-- The whole tuple loop: first failing dimension wins, as in the
sequential Python loop. -/
def checkDims : List Dim → Except OrmError (List String)
  | [] => Except.ok []
  | d :: ds =>
    match checkDim d with
    | Except.error e => Except.error e
    | Except.ok k =>
      match checkDims ds with
      | Except.error e => Except.error e
      | Except.ok rest => Except.ok (k :: rest)

/-- `Hash._validate_key` (orm.py lines 58-86).  Tuple: dimension-count
bound, per-dimension checks, join with the delimiter (the code appends a
trailing delimiter per part and strips it, which equals intercalation),
then the shared length bound.  Scalar: stringify, delimiter/separator
checks, shared length bound. -/
def validate_key : Coord → Except OrmError String
  | Coord.tup ds =>
    if MAX_HASH_DIMENSIONS < ds.length then
      Except.error (OrmError.assertionError "Too many dimensions for hash.")
    else
      match checkDims ds with
      | Except.error e => Except.error e
      | Except.ok parts =>
        let key := String.intercalate (String.singleton DELIMITER) parts
        if MAX_KEY_SIZE < key.length then
          Except.error (OrmError.assertionError "Key is too long.")
        else Except.ok key
  | Coord.scalar d =>
    let key := dimStr d
    if strContains key DELIMITER then
      Except.error (OrmError.assertionError "Illegal delimiter in key.")
    else if strContains key INDEX_SEPARATOR then
      Except.error (OrmError.assertionError "Illegal separator in key.")
    else if MAX_KEY_SIZE < key.length then
      Except.error (OrmError.assertionError "Key is too long.")
    else Except.ok key

/-- `ContractDriver.make_key` (`new_driver.py` lines 133-144).  The
field delimiter `self.delimiter` is never assigned under the given
sources; modelled from the spec (FIELD_DELIMITER, distinct from the
argument separator), the literal pinned by the unit tests
(`driver.make_key('blah', 'scoob')` composes `blah.scoob`).  Each
coordinate element is appended as the hardcoded `':'` followed by its
string form. -/
def make_key (contract field : String) (args : Option (List Dim)) : String :=
  let k := contract ++ String.singleton INDEX_SEPARATOR ++ field
  match args with
  | Option.none => k
  | Option.some el => el.foldl (fun acc a => acc ++ String.singleton DELIMITER ++ dimStr a) k

/-- `ContractingDecimal(str(value))` applied when the retrieved or
defaulted value has exact runtime type `float` or `ContractingDecimal`
(orm.py lines 53-54); every other value passes through. -/
def normalizeNum : Val → Val
  | Val.float fs => Val.dec fs
  | Val.dec ds => Val.dec ds
  | v => v

/-- The bound key of a `Datum` (orm.py lines 10-13):
`driver.make_key(contract, name)`. -/
def Datum.key (contract name : String) : String :=
  make_key contract name Option.none

/-- `Variable.set` (orm.py lines 25-32) with no declared type (the
default `t=None`), routed through the per-execution cached driver.  The
ORM's `contracting.storage.driver.Driver` is not under the given
sources; modelled from the spec: ORM bindings reach state through the
caching overlay, embedded above as `CacheDriver`. -/
def Variable.set (s : CacheDriver) (contract name : String) (v : Val) : CacheDriver :=
  CacheDriver.set s (Datum.key contract name) v

/-- `Variable.get` (orm.py lines 34-35): delegate to the driver at the
bound key. -/
def Variable.get (s : CacheDriver) (contract name : String) : Val × CacheDriver :=
  let r := CacheDriver.get s (Datum.key contract name)
  (r.1, r.2.1)

/-- `Hash._set` (orm.py lines 43-44): write at
`f"{self._key}{self._delimiter}{key}"`. -/
def Hash.rawSet (s : CacheDriver) (contract name ks : String) (v : Val) : CacheDriver :=
  CacheDriver.set s (Datum.key contract name ++ String.singleton DELIMITER ++ ks) v

/-- `Hash._get` (orm.py lines 46-56): fetch at the composed key,
substitute the configured default for `None`, then apply the numeric
normalisation. -/
def Hash.rawGet (s : CacheDriver) (contract name : String) (dflt : Val) (ks : String) :
    Val × CacheDriver :=
  let r := CacheDriver.get s (Datum.key contract name ++ String.singleton DELIMITER ++ ks)
  let v := if r.1 = Val.none then dflt else r.1
  (normalizeNum v, r.2.1)

/-- `Hash.__setitem__` (orm.py lines 110-113): validate, then stage the
write. -/
def Hash.setItem (s : CacheDriver) (contract name : String) (coord : Coord) (v : Val) :
    Except OrmError CacheDriver :=
  match validate_key coord with
  | Except.error e => Except.error e
  | Except.ok ks => Except.ok (Hash.rawSet s contract name ks v)

/-- `Hash.__getitem__` (orm.py lines 115-117): validate, then read. -/
def Hash.getItem (s : CacheDriver) (contract name : String) (dflt : Val) (coord : Coord) :
    Except OrmError (Val × CacheDriver) :=
  match validate_key coord with
  | Except.error e => Except.error e
  | Except.ok ks => Except.ok (Hash.rawGet s contract name dflt ks)

/-- `Hash._prefix_for_args` (orm.py lines 88-94). -/
def Hash.prefixForArgs (contract name : String) (args : List Dim) :
    Except OrmError String :=
  match validate_key (Coord.tup args) with
  | Except.error e => Except.error e
  | Except.ok multi =>
    let p := Datum.key contract name ++ String.singleton DELIMITER
    Except.ok (if multi = "" then p else p ++ multi ++ String.singleton DELIMITER)

/-- `Hash.all` (orm.py lines 96-98): the values of the merged view under
the composed sub-prefix. -/
def Hash.all (s : CacheDriver) (contract name : String) (args : List Dim) :
    Except OrmError (List Val) :=
  match Hash.prefixForArgs contract name args with
  | Except.error e => Except.error e
  | Except.ok p => Except.ok (ContractDriver.values s p)

/-- The ORM driver's `delete`.  Modelled from the spec: the ORM's driver
class is not under the given sources; the spec (section 3) defines
writing the none value as deletion and (section 4.2) every pre-commit
mutation as staged through the caching overlay. -/
def CacheDriver.delete (s : CacheDriver) (k : String) : CacheDriver :=
  CacheDriver.set s k Val.none

/-- `Hash.clear` (orm.py lines 104-108): enumerate the merged view under
the sub-prefix and delete each resolved key. -/
def Hash.clear (s : CacheDriver) (contract name : String) (args : List Dim) :
    Except OrmError CacheDriver :=
  match Hash.prefixForArgs contract name args with
  | Except.error e => Except.error e
  | Except.ok p =>
    Except.ok ((ContractDriver.items s p).foldl
      (fun st kv => CacheDriver.delete st kv.1) s)

/-- `ForeignVariable` (orm.py lines 123-131): `__init__` rebinds `_key`
to the foreign contract and name; `get` is inherited from `Variable`. -/
def ForeignVariable.get (s : CacheDriver) (foreign_contract foreign_name : String) :
    Val × CacheDriver :=
  Variable.get s foreign_contract foreign_name

/-- `ForeignVariable.set` (orm.py lines 130-131): unconditionally
`raise ReferenceError`; no state is touched. -/
def ForeignVariable.set (s : CacheDriver) (foreign_contract foreign_name : String)
    (v : Val) : Except OrmError CacheDriver :=
  Except.error OrmError.referenceError

/-- `ForeignHash.__getitem__` (orm.py lines 147-148): the inherited
`Hash.__getitem__` addressed at the rebound foreign key. -/
def ForeignHash.getItem (s : CacheDriver) (foreign_contract foreign_name : String)
    (dflt : Val) (coord : Coord) : Except OrmError (Val × CacheDriver) :=
  Hash.getItem s foreign_contract foreign_name dflt coord

/-- `ForeignHash.all`: inherited `Hash.all` at the rebound foreign key. -/
def ForeignHash.all (s : CacheDriver) (foreign_contract foreign_name : String)
    (args : List Dim) : Except OrmError (List Val) :=
  Hash.all s foreign_contract foreign_name args

/-- `ForeignHash.__setitem__` (orm.py lines 144-145): unconditionally
`raise ReferenceError`. -/
def ForeignHash.setItem (s : CacheDriver) (foreign_contract foreign_name : String)
    (coord : Coord) (v : Val) : Except OrmError CacheDriver :=
  Except.error OrmError.referenceError

/-- `ForeignHash.clear` (orm.py lines 150-151): unconditionally raise a
plain `Exception`. -/
def ForeignHash.clear (s : CacheDriver) (foreign_contract foreign_name : String)
    (args : List Dim) : Except OrmError CacheDriver :=
  Except.error (OrmError.plainException "Cannot write with a ForeignHash.")

/-- The trailing argument segments of a composed key: one argument
separator followed by the element's string form, per element, in order
(spec wording for `make_key`). -/
def argTail : List Dim → String
  | [] => ""
  | a :: rest => String.singleton DELIMITER ++ dimStr a ++ argTail rest

theorem make_key_foldl_argTail (el : List Dim) (acc : String) :
    el.foldl (fun acc a => acc ++ String.singleton DELIMITER ++ dimStr a) acc =
      acc ++ argTail el := by
  induction el generalizing acc with
  | nil => simp [argTail]
  | cons a rest ih =>
    rw [List.foldl_cons, ih, argTail]
    simp [String.append_assoc]

/-- C6: `make_key(contract, field, coordinate)` is the contract, the
field delimiter (the dot `INDEX_SEPARATOR`), the field, then for each
coordinate element the argument separator (the colon `DELIMITER`)
followed by the element — and the two delimiter literals are distinct. -/
theorem C6_make_key_two_delimiters (contract field : String) (el : List Dim) :
    make_key contract field Option.none =
      contract ++ String.singleton INDEX_SEPARATOR ++ field ∧
    make_key contract field (Option.some el) =
      contract ++ String.singleton INDEX_SEPARATOR ++ field ++ argTail el ∧
    INDEX_SEPARATOR ≠ DELIMITER := by
  refine ⟨rfl, ?_, by decide⟩
  show (el.foldl (fun acc a => acc ++ String.singleton DELIMITER ++ dimStr a)
      (contract ++ String.singleton INDEX_SEPARATOR ++ field)) =
    contract ++ String.singleton INDEX_SEPARATOR ++ field ++ argTail el
  rw [make_key_foldl_argTail]

/-- A dimension whose string form embeds the delimiter or the index
separator (the two illegal-character checks of `_validate_key`). -/
def dimBad (d : Dim) : Bool :=
  strContains (dimStr d) DELIMITER || strContains (dimStr d) INDEX_SEPARATOR


theorem checkDim_isOk_iff (d : Dim) :
    (checkDim d).isOk = false ↔ (d = Dim.slice ∨ dimBad d = true) := by
  cases d with
  | slice => simp [checkDim, Except.isOk, Except.toBool]
  | s v =>
    by_cases h1 : strContains v DELIMITER = true
    · simp [checkDim, dimStr, dimBad, h1, Except.isOk, Except.toBool]
    · by_cases h2 : strContains v INDEX_SEPARATOR = true
      · simp [checkDim, dimStr, dimBad, h1, h2, Except.isOk, Except.toBool]
      · simp [checkDim, dimStr, dimBad, h1, h2, Except.isOk, Except.toBool]
  | i n =>
    by_cases h1 : strContains (toString n) DELIMITER = true
    · simp [checkDim, dimStr, dimBad, h1, Except.isOk, Except.toBool]
    · by_cases h2 : strContains (toString n) INDEX_SEPARATOR = true
      · simp [checkDim, dimStr, dimBad, h1, h2, Except.isOk, Except.toBool]
      · simp [checkDim, dimStr, dimBad, h1, h2, Except.isOk, Except.toBool]

theorem checkDim_ok_val (d : Dim) (k : String) (h : checkDim d = Except.ok k) :
    k = dimStr d := by
  cases d with
  | slice => simp [checkDim] at h
  | s v =>
    by_cases h1 : strContains v DELIMITER = true
    · simp [checkDim, dimStr, h1] at h
    · by_cases h2 : strContains v INDEX_SEPARATOR = true
      · simp [checkDim, dimStr, h1, h2] at h
      · simp [checkDim, dimStr, h1, h2] at h
        simp [dimStr, h.symm]
  | i n =>
    by_cases h1 : strContains (toString n) DELIMITER = true
    · simp [checkDim, dimStr, h1] at h
    · by_cases h2 : strContains (toString n) INDEX_SEPARATOR = true
      · simp [checkDim, dimStr, h1, h2] at h
      · simp [checkDim, dimStr, h1, h2] at h
        simp [dimStr, h.symm]

theorem checkDims_cons (d : Dim) (rest : List Dim) :
    checkDims (d :: rest) =
      match checkDim d with
      | Except.error e => Except.error e
      | Except.ok k =>
        match checkDims rest with
        | Except.error e => Except.error e
        | Except.ok parts => Except.ok (k :: parts) := rfl

theorem checkDims_isOk_iff (ds : List Dim) :
    (checkDims ds).isOk = true ↔ ∀ d ∈ ds, (checkDim d).isOk = true := by
  induction ds with
  | nil => simp [checkDims, Except.isOk, Except.toBool]
  | cons d rest ih =>
    cases hd : checkDim d with
    | error e =>
      simp only [checkDims_cons, hd]
      constructor
      · intro h
        simp [Except.isOk, Except.toBool] at h
      · intro h
        have := h d (List.mem_cons_self d rest)
        rw [hd] at this
        simp [Except.isOk, Except.toBool] at this
    | ok k =>
      cases hr : checkDims rest with
      | error e =>
        simp only [checkDims_cons, hd, hr]
        constructor
        · intro h
          simp [Except.isOk, Except.toBool] at h
        · intro h
          have hrest : ∀ d0 ∈ rest, (checkDim d0).isOk = true :=
            fun d0 hd0 => h d0 (List.mem_cons_of_mem d hd0)
          have := ih.mpr hrest
          rw [hr] at this
          simp [Except.isOk, Except.toBool] at this
      | ok parts =>
        simp only [checkDims_cons, hd, hr]
        constructor
        · intro _ d0 hd0
          rcases List.mem_cons.mp hd0 with h1 | h1
          · subst h1
            simp [hd, Except.isOk, Except.toBool]
          · exact ih.mp (by rw [hr]; simp [Except.isOk, Except.toBool]) d0 h1
        · intro _
          simp [Except.isOk, Except.toBool]

theorem checkDims_ok_val (ds : List Dim) (parts : List String)
    (h : checkDims ds = Except.ok parts) : parts = ds.map dimStr := by
  induction ds generalizing parts with
  | nil =>
    simp [checkDims] at h
    simp [h.symm]
  | cons d rest ih =>
    cases hd : checkDim d with
    | error e => simp [checkDims_cons, hd] at h
    | ok k =>
      cases hr : checkDims rest with
      | error e => simp [checkDims_cons, hd, hr] at h
      | ok tailParts =>
        simp [checkDims_cons, hd, hr] at h
        rw [List.map_cons, ← h, checkDim_ok_val d k hd, ih tailParts hr]

theorem checkDim_error_shape (d : Dim) (e : OrmError)
    (h : checkDim d = Except.error e) :
    ∃ m, e = OrmError.assertionError m := by
  cases d with
  | slice =>
    rw [checkDim] at h
    cases h
    exact ⟨"Slices prohibited in hashes.", rfl⟩
  | s v =>
    simp only [checkDim, dimStr] at h
    by_cases h1 : strContains v DELIMITER = true
    · rw [if_pos h1] at h
      cases h
      exact ⟨"Illegal delimiter in key.", rfl⟩
    · rw [if_neg h1] at h
      by_cases h2 : strContains v INDEX_SEPARATOR = true
      · rw [if_pos h2] at h
        cases h
        exact ⟨"Illegal separator in key.", rfl⟩
      · rw [if_neg h2] at h
        cases h
  | i n =>
    simp only [checkDim, dimStr] at h
    by_cases h1 : strContains (toString n) DELIMITER = true
    · rw [if_pos h1] at h
      cases h
      exact ⟨"Illegal delimiter in key.", rfl⟩
    · rw [if_neg h1] at h
      by_cases h2 : strContains (toString n) INDEX_SEPARATOR = true
      · rw [if_pos h2] at h
        cases h
        exact ⟨"Illegal separator in key.", rfl⟩
      · rw [if_neg h2] at h
        cases h

theorem checkDims_error_shape (ds : List Dim) (e : OrmError)
    (hcd : checkDims ds = Except.error e) :
    ∃ m, e = OrmError.assertionError m := by
  induction ds with
  | nil => simp [checkDims] at hcd
  | cons d rest ih =>
    cases hd : checkDim d with
    | error e0 =>
      rw [checkDims_cons, hd] at hcd
      cases hcd
      exact checkDim_error_shape d e hd
    | ok k =>
      cases hr : checkDims rest with
      | error e1 =>
        rw [checkDims_cons, hd, hr] at hcd
        cases hcd
        exact ih hr
      | ok parts =>
        rw [checkDims_cons, hd, hr] at hcd
        cases hcd

/-- Every failure of `_validate_key` is an `AssertionError`. -/
theorem validate_key_error_shape (c : Coord) (e : OrmError)
    (h : validate_key c = Except.error e) :
    ∃ m, e = OrmError.assertionError m := by
  cases c with
  | tup ds =>
    by_cases hlen : MAX_HASH_DIMENSIONS < ds.length
    · rw [validate_key, if_pos hlen] at h
      cases h
      exact ⟨"Too many dimensions for hash.", rfl⟩
    · rw [validate_key, if_neg hlen] at h
      cases hcd : checkDims ds with
      | error e0 =>
        rw [hcd] at h
        cases h
        exact checkDims_error_shape ds e hcd
      | ok parts =>
        rw [hcd] at h
        dsimp only at h
        by_cases hk : MAX_KEY_SIZE <
            (String.intercalate (String.singleton DELIMITER) parts).length
        · rw [if_pos hk] at h
          cases h
          exact ⟨"Key is too long.", rfl⟩
        · rw [if_neg hk] at h
          cases h
  | scalar d =>
    simp only [validate_key] at h
    by_cases h1 : strContains (dimStr d) DELIMITER = true
    · rw [if_pos h1] at h
      cases h
      exact ⟨"Illegal delimiter in key.", rfl⟩
    · rw [if_neg h1] at h
      by_cases h2 : strContains (dimStr d) INDEX_SEPARATOR = true
      · rw [if_pos h2] at h
        cases h
        exact ⟨"Illegal separator in key.", rfl⟩
      · rw [if_neg h2] at h
        by_cases h3 : MAX_KEY_SIZE < (dimStr d).length
        · rw [if_pos h3] at h
          cases h
          exact ⟨"Key is too long.", rfl⟩
        · rw [if_neg h3] at h
          cases h

theorem validate_key_tup_fails_of_bad (ds : List Dim)
    (h : ∃ d ∈ ds, (checkDim d).isOk = false) :
    (validate_key (Coord.tup ds)).isOk = false := by
  by_cases hlen : MAX_HASH_DIMENSIONS < ds.length
  · simp [validate_key, hlen, Except.isOk, Except.toBool]
  · have hnotall : ¬ ∀ d ∈ ds, (checkDim d).isOk = true := by
      rcases h with ⟨d, hd, hde⟩
      intro hall
      rw [hall d hd] at hde
      exact Bool.noConfusion hde
    cases hcd : checkDims ds with
    | ok parts =>
      exact absurd ((checkDims_isOk_iff ds).mp (by rw [hcd]; rfl)) hnotall
    | error e =>
      simp [validate_key, hlen, hcd, Except.isOk, Except.toBool]

/-- C10: a tuple coordinate containing a Python slice object fails
validation with an `AssertionError` before any key is built, and every
`Hash` operation given that coordinate returns the error without reading
or writing any state. -/
theorem C10_slice_in_tuple_rejected (s : CacheDriver) (c n : String) (ds : List Dim)
    (dflt v : Val) (h : Dim.slice ∈ ds) :
    ∃ m, validate_key (Coord.tup ds) = Except.error (OrmError.assertionError m) ∧
      Hash.setItem s c n (Coord.tup ds) v = Except.error (OrmError.assertionError m) ∧
      Hash.getItem s c n dflt (Coord.tup ds) = Except.error (OrmError.assertionError m) ∧
      Hash.all s c n ds = Except.error (OrmError.assertionError m) ∧
      Hash.clear s c n ds = Except.error (OrmError.assertionError m) := by
  have hbad : ∃ d ∈ ds, (checkDim d).isOk = false :=
    ⟨Dim.slice, h, by simp [checkDim, Except.isOk, Except.toBool]⟩
  have hko := validate_key_tup_fails_of_bad ds hbad
  cases hv : validate_key (Coord.tup ds) with
  | ok k =>
    rw [hv] at hko
    simp [Except.isOk, Except.toBool] at hko
  | error e =>
    rcases validate_key_error_shape _ e hv with ⟨m, hm⟩
    subst hm
    exact ⟨m, rfl,
      by simp [Hash.setItem, hv],
      by simp [Hash.getItem, hv],
      by simp [Hash.all, Hash.prefixForArgs, hv],
      by simp [Hash.clear, Hash.prefixForArgs, hv]⟩

theorem C10_slice_in_tuple_rejected_witness :
    Dim.slice ∈ [Dim.s "a", Dim.slice] ∧
    (∃ m, validate_key (Coord.tup [Dim.s "a", Dim.slice]) =
        Except.error (OrmError.assertionError m) ∧
      Hash.setItem ⟨[], [], [], []⟩ "blah" "scoob" (Coord.tup [Dim.s "a", Dim.slice])
          (Val.int 1) = Except.error (OrmError.assertionError m) ∧
      Hash.getItem ⟨[], [], [], []⟩ "blah" "scoob" (Val.int 0)
          (Coord.tup [Dim.s "a", Dim.slice]) = Except.error (OrmError.assertionError m) ∧
      Hash.all ⟨[], [], [], []⟩ "blah" "scoob" [Dim.s "a", Dim.slice] =
        Except.error (OrmError.assertionError m) ∧
      Hash.clear ⟨[], [], [], []⟩ "blah" "scoob" [Dim.s "a", Dim.slice] =
        Except.error (OrmError.assertionError m)) :=
  ⟨by decide,
   C10_slice_in_tuple_rejected ⟨[], [], [], []⟩ "blah" "scoob" [Dim.s "a", Dim.slice]
     (Val.int 0) (Val.int 1) (by decide)⟩

theorem normalizeNum_ne_none (v : Val) (h : v ≠ Val.none) :
    normalizeNum v ≠ Val.none := by
  cases v <;> simp [normalizeNum] <;> exact h rfl

theorem normalizeNum_not_float (v : Val) (fs : String) :
    normalizeNum v ≠ Val.float fs := by
  cases v <;> simp [normalizeNum]

/-- C9: a `Hash` configured with a default returns the default, not
none, for an unset coordinate (unset both in cache and backing store);
and every value a `Hash` read returns has gone through the numeric
normalisation, so it is never of native floating kind — a float
default or stored float comes back as the fixed-precision decimal. -/
theorem C9_default_and_decimal_normalization (s : CacheDriver) (c n : String)
    (dflt : Val) (coord : Coord) (ks : String)
    (hv : validate_key coord = Except.ok ks)
    (hcache : cacheGetPy s.cache
      (Datum.key c n ++ String.singleton DELIMITER ++ ks) = Val.none)
    (hstore : Driver.get s.store
      (Datum.key c n ++ String.singleton DELIMITER ++ ks) = Val.none)
    (hd : dflt ≠ Val.none) :
    (Hash.getItem s c n dflt coord =
      Except.ok (normalizeNum dflt,
        (CacheDriver.get s (Datum.key c n ++ String.singleton DELIMITER ++ ks)).2.1) ∧
     normalizeNum dflt ≠ Val.none) ∧
    (∀ (s₀ : CacheDriver) (d₀ : Val) (c₀ : Coord) (v₀ : Val) (s₂ : CacheDriver)
        (fs : String),
      Hash.getItem s₀ c n d₀ c₀ = Except.ok (v₀, s₂) → v₀ ≠ Val.float fs) := by
  constructor
  · constructor
    · simp only [Hash.getItem, hv, Hash.rawGet]
      simp [CacheDriver.get, hcache, hstore]
    · exact normalizeNum_ne_none dflt hd
  · intro s₀ d₀ c₀ v₀ s₂ fs hok
    cases hv₀ : validate_key c₀ with
    | error e =>
      rw [Hash.getItem, hv₀] at hok
      cases hok
    | ok ks₀ =>
      rw [Hash.getItem, hv₀] at hok
      dsimp only [Hash.rawGet] at hok
      have hv1 : v₀ = normalizeNum
          (if (CacheDriver.get s₀ (Datum.key c n ++ String.singleton DELIMITER ++ ks₀)).1
              = Val.none then d₀
           else (CacheDriver.get s₀ (Datum.key c n ++ String.singleton DELIMITER ++ ks₀)).1) := by
        cases hok
        rfl
      rw [hv1]
      exact normalizeNum_not_float _ fs

theorem C9_default_and_decimal_normalization_witness :
    validate_key (Coord.scalar (Dim.s "hello")) = Except.ok "hello" ∧
    (Hash.getItem ⟨[], [], [], []⟩ "blah" "scoob" (Val.int 0)
        (Coord.scalar (Dim.s "hello")) =
      Except.ok (normalizeNum (Val.int 0),
        (CacheDriver.get ⟨[], [], [], []⟩
          (Datum.key "blah" "scoob" ++ String.singleton DELIMITER ++ "hello")).2.1) ∧
     normalizeNum (Val.int 0) ≠ Val.none) :=
  ⟨rfl,
   (C9_default_and_decimal_normalization ⟨[], [], [], []⟩ "blah" "scoob" (Val.int 0)
     (Coord.scalar (Dim.s "hello")) "hello" rfl rfl rfl (by decide)).1⟩

/-- The dimensions of a coordinate (spec glossary: a coordinate is a
scalar or an ordered tuple of scalars). -/
def coordDims : Coord → List Dim
  | Coord.scalar d => [d]
  | Coord.tup ds => ds

/-- Spec-side definition for the refinement in claim C5: the composed
coordinate string (the dimensions' string forms joined by the delimiter,
excluding the bound contract.field key). -/
def composedCoord : Coord → String
  | Coord.scalar d => dimStr d
  | Coord.tup ds => String.intercalate (String.singleton DELIMITER) (ds.map dimStr)

/-- Spec-side definition for claim C5: the claimed failure condition of
coordinate validation. -/
def specValidationFails (c : Coord) : Prop :=
  MAX_HASH_DIMENSIONS < (coordDims c).length ∨
  (∃ d ∈ coordDims c, dimBad d = true) ∨
  MAX_KEY_SIZE < (composedCoord c).length

theorem validate_key_isOk_false_iff (coord : Coord)
    (hns : Dim.slice ∉ coordDims coord) :
    (validate_key coord).isOk = false ↔ specValidationFails coord := by
  cases coord with
  | scalar d =>
    constructor
    · intro hfail
      simp only [validate_key] at hfail
      by_cases h1 : strContains (dimStr d) DELIMITER = true
      · exact Or.inr (Or.inl ⟨d, by simp [coordDims], by simp [dimBad, h1]⟩)
      · rw [if_neg h1] at hfail
        by_cases h2 : strContains (dimStr d) INDEX_SEPARATOR = true
        · exact Or.inr (Or.inl ⟨d, by simp [coordDims], by simp [dimBad, h1, h2]⟩)
        · rw [if_neg h2] at hfail
          by_cases h3 : MAX_KEY_SIZE < (dimStr d).length
          · exact Or.inr (Or.inr (by simpa [composedCoord] using h3))
          · rw [if_neg h3] at hfail
            simp [Except.isOk, Except.toBool] at hfail
    · intro hspec
      rcases hspec with h1 | h2 | h3
      · simp [coordDims, MAX_HASH_DIMENSIONS] at h1
      · rcases h2 with ⟨d0, hd0, hbad⟩
        have hdd : d0 = d := by simpa [coordDims] using hd0
        subst hdd
        simp only [validate_key]
        rcases Bool.or_eq_true_iff.mp (by simpa [dimBad] using hbad) with hb1 | hb2
        · simp [hb1, Except.isOk, Except.toBool]
        · by_cases h1 : strContains (dimStr d0) DELIMITER = true
          · simp [h1, Except.isOk, Except.toBool]
          · simp [h1, hb2, Except.isOk, Except.toBool]
      · simp only [validate_key]
        by_cases h1 : strContains (dimStr d) DELIMITER = true
        · simp [h1, Except.isOk, Except.toBool]
        · by_cases h2 : strContains (dimStr d) INDEX_SEPARATOR = true
          · simp [h1, h2, Except.isOk, Except.toBool]
          · have h3s : MAX_KEY_SIZE < (dimStr d).length := by
              simpa [composedCoord] using h3
            simp [h1, h2, h3s, Except.isOk, Except.toBool]
  | tup ds0 =>
    have hns0 : ∀ d ∈ ds0, d ≠ Dim.slice := by
      intro d hd he
      subst he
      exact hns (by simpa [coordDims] using hd)
    constructor
    · intro hfail
      by_cases hlen : MAX_HASH_DIMENSIONS < ds0.length
      · exact Or.inl (by simpa [coordDims] using hlen)
      · simp only [validate_key] at hfail
        rw [if_neg hlen] at hfail
        cases hcd : checkDims ds0 with
        | error e =>
          have hnot : ¬ ∀ d ∈ ds0, (checkDim d).isOk = true := by
            intro hall
            have hh := (checkDims_isOk_iff ds0).mpr hall
            rw [hcd] at hh
            simp [Except.isOk, Except.toBool] at hh
          push_neg at hnot
          rcases hnot with ⟨d, hd, hne⟩
          have hfalse : (checkDim d).isOk = false := by
            cases hh : (checkDim d).isOk
            · rfl
            · exact absurd hh hne
          rcases (checkDim_isOk_iff d).mp hfalse with hsl | hbad
          · exact absurd hsl (hns0 d hd)
          · exact Or.inr (Or.inl ⟨d, by simpa [coordDims] using hd, hbad⟩)
        | ok parts =>
          rw [hcd] at hfail
          dsimp only at hfail
          by_cases hk : MAX_KEY_SIZE <
              (String.intercalate (String.singleton DELIMITER) parts).length
          · have hparts := checkDims_ok_val ds0 parts hcd
            rw [hparts] at hk
            exact Or.inr (Or.inr (by simpa [composedCoord] using hk))
          · rw [if_neg hk] at hfail
            simp [Except.isOk, Except.toBool] at hfail
    · intro hspec
      rcases hspec with h1 | h2 | h3
      · have hlen : MAX_HASH_DIMENSIONS < ds0.length := by
          simpa [coordDims] using h1
        simp [validate_key, hlen, Except.isOk, Except.toBool]
      · rcases h2 with ⟨d, hd, hbad⟩
        exact validate_key_tup_fails_of_bad ds0
          ⟨d, by simpa [coordDims] using hd, (checkDim_isOk_iff d).mpr (Or.inr hbad)⟩
      · by_cases hlen : MAX_HASH_DIMENSIONS < ds0.length
        · simp [validate_key, hlen, Except.isOk, Except.toBool]
        · cases hcd : checkDims ds0 with
          | error e =>
            simp [validate_key, hlen, hcd, Except.isOk, Except.toBool]
          | ok parts =>
            have hparts := checkDims_ok_val ds0 parts hcd
            have hk : MAX_KEY_SIZE <
                (String.intercalate (String.singleton DELIMITER) parts).length := by
              rw [hparts]
              simpa [composedCoord] using h3
            simp [validate_key, hlen, hcd, hk, Except.isOk, Except.toBool]

/-- C5: for slice-free coordinates (the spec's coordinates are scalars),
a `Hash` operation fails validation exactly when the dimension count
exceeds `MAX_HASH_DIMENSIONS`, or some dimension's string form contains
the delimiter or the index separator, or the composed coordinate string
(excluding the bound prefix) exceeds `MAX_KEY_SIZE`; on a validation
error every operation returns that error before any state is read or
staged, and when validation passes every operation proceeds. -/
theorem C5_coordinate_validation (s : CacheDriver) (c n : String) (coord : Coord)
    (ds : List Dim) (dflt v : Val)
    (hns : Dim.slice ∉ coordDims coord) (hns2 : Dim.slice ∉ ds) :
    ((validate_key coord).isOk = false ↔ specValidationFails coord) ∧
    (∀ e, validate_key coord = Except.error e →
      Hash.setItem s c n coord v = Except.error e ∧
      Hash.getItem s c n dflt coord = Except.error e) ∧
    ((validate_key coord).isOk = true →
      (Hash.setItem s c n coord v).isOk = true ∧
      (Hash.getItem s c n dflt coord).isOk = true) ∧
    ((validate_key (Coord.tup ds)).isOk = false ↔ specValidationFails (Coord.tup ds)) ∧
    (∀ e, validate_key (Coord.tup ds) = Except.error e →
      Hash.all s c n ds = Except.error e ∧
      Hash.clear s c n ds = Except.error e) ∧
    ((validate_key (Coord.tup ds)).isOk = true →
      (Hash.all s c n ds).isOk = true ∧
      (Hash.clear s c n ds).isOk = true) := by
  refine ⟨validate_key_isOk_false_iff coord hns, ?_, ?_,
    validate_key_isOk_false_iff (Coord.tup ds) (by simpa [coordDims] using hns2),
    ?_, ?_⟩
  · intro e he
    exact ⟨by simp [Hash.setItem, he], by simp [Hash.getItem, he]⟩
  · intro hok
    cases hv : validate_key coord with
    | error e =>
      rw [hv] at hok
      simp [Except.isOk, Except.toBool] at hok
    | ok ks =>
      exact ⟨by simp [Hash.setItem, hv, Except.isOk, Except.toBool],
        by simp [Hash.getItem, hv, Except.isOk, Except.toBool]⟩
  · intro e he
    exact ⟨by simp [Hash.all, Hash.prefixForArgs, he],
      by simp [Hash.clear, Hash.prefixForArgs, he]⟩
  · intro hok
    cases hv : validate_key (Coord.tup ds) with
    | error e =>
      rw [hv] at hok
      simp [Except.isOk, Except.toBool] at hok
    | ok ks =>
      exact ⟨by simp [Hash.all, Hash.prefixForArgs, hv, Except.isOk, Except.toBool],
        by simp [Hash.clear, Hash.prefixForArgs, hv, Except.isOk, Except.toBool]⟩

theorem C5_coordinate_validation_witness :
    (Hash.setItem ⟨[], [], [], []⟩ "blah" "scoob" (Coord.scalar (Dim.s "stu"))
        (Val.int 1)).isOk = true ∧
    (Hash.all ⟨[], [], [], []⟩ "blah" "scoob" [Dim.s "stu", Dim.s "raghu"]).isOk = true :=
  ⟨((C5_coordinate_validation ⟨[], [], [], []⟩ "blah" "scoob"
      (Coord.scalar (Dim.s "stu")) [Dim.s "stu", Dim.s "raghu"] (Val.int 0) (Val.int 1)
      (by decide) (by decide)).2.2.1 rfl).1,
   ((C5_coordinate_validation ⟨[], [], [], []⟩ "blah" "scoob"
      (Coord.scalar (Dim.s "stu")) [Dim.s "stu", Dim.s "raghu"] (Val.int 0) (Val.int 1)
      (by decide) (by decide)).2.2.2.2.2 rfl).1⟩

/-- C7: foreign bindings are read-only aliases.  Every mutating
operation on a `ForeignVariable` or `ForeignHash` unconditionally
returns the read-only error and carries no successor state, while each
read operation equals the owning type's read addressed at the foreign
key — and in particular observes an uncommitted write staged through the
owning binding in the same execution. -/
theorem C7_foreign_bindings_read_only (s : CacheDriver) (fc fn : String) (v : Val)
    (coord : Coord) (args : List Dim) (dflt : Val) :
    ForeignVariable.set s fc fn v = Except.error OrmError.referenceError ∧
    ForeignHash.setItem s fc fn coord v = Except.error OrmError.referenceError ∧
    ForeignHash.clear s fc fn args =
      Except.error (OrmError.plainException "Cannot write with a ForeignHash.") ∧
    ForeignVariable.get s fc fn = Variable.get s fc fn ∧
    ForeignHash.getItem s fc fn dflt coord = Hash.getItem s fc fn dflt coord ∧
    ForeignHash.all s fc fn args = Hash.all s fc fn args ∧
    (v ≠ Val.none → (ForeignVariable.get (Variable.set s fc fn v) fc fn).1 = v) := by
  refine ⟨rfl, rfl, rfl, rfl, rfl, rfl, fun hv => ?_⟩
  have hc : cacheGetPy (Variable.set s fc fn v).cache (Datum.key fc fn) = v := by
    simp [Variable.set, CacheDriver.set, cacheGetPy_alInsert_self]
  simp [ForeignVariable.get, Variable.get, CacheDriver.get, hc, hv]

theorem C7_foreign_bindings_read_only_witness :
    Val.int 10 ≠ Val.none ∧
    (ForeignVariable.get
      (Variable.set ⟨[], [], [], []⟩ "currency" "balances" (Val.int 10))
      "currency" "balances").1 = Val.int 10 :=
  ⟨by decide,
   (C7_foreign_bindings_read_only ⟨[], [], [], []⟩ "currency" "balances" (Val.int 10)
     (Coord.scalar (Dim.s "x")) [] (Val.int 0)).2.2.2.2.2.2 (by decide)⟩

/-- A Python type object as it can appear in an event schema; the
allowed set is str, int, float, ContractingDecimal, bool; `list` and
`dict` stand for the disallowed kinds. -/
inductive PyType where
  | str : PyType
  | int : PyType
  | float : PyType
  | dec : PyType
  | bool : PyType
  | list : PyType
  | dict : PyType
deriving DecidableEq, Repr

/-- `issubclass(t, (str, int, float, ContractingDecimal, bool))`. -/
def allowedType : PyType → Bool
  | PyType.str => true
  | PyType.int => true
  | PyType.float => true
  | PyType.dec => true
  | PyType.bool => true
  | PyType.list => false
  | PyType.dict => false

/-- `isinstance(value, t)` with Python subclass rules: a bool is an
instance of `int` (bool subclasses int); `None` is an instance of
nothing in the allowed set. -/
def vinst : Val → PyType → Bool
  | Val.str _, PyType.str => true
  | Val.int _, PyType.int => true
  | Val.bool _, PyType.bool => true
  | Val.bool _, PyType.int => true
  | Val.float _, PyType.float => true
  | Val.dec _, PyType.dec => true
  | _, _ => false

/-- One schema argument after `__init__` normalised `arg['type']` to a
tuple: the allowed kinds and the indexed flag (`idx`, default false). -/
structure ArgSpec where
  types : List PyType
  idx : Bool
deriving DecidableEq, Repr

/-- An event schema: Python dict of argument name to spec. -/
abbrev Schema := List (String × ArgSpec)

/-- `LogEvent.__init__` (orm.py lines 154-175): args must be a
non-empty dict, at most three indexed arguments, every declared kind in
the allowed set.  (The `isinstance(arg['type'], str)` length check on
line 174 is dead code — `arg['type']` is a tuple by then — and has no
observable effect.)  The Python loop stops at the first offending
argument; only failure versus success is observable here. -/
def logEventInit (args : Schema) : Except OrmError Unit :=
  if args.length = 0 then
    Except.error (OrmError.assertionError "Args must have at least one argument.")
  else if 3 < (args.filter (fun a => a.2.idx)).length then
    Except.error (OrmError.assertionError "Args must have at most three indexed arguments.")
  else if args.all (fun a => a.2.types.all allowedType) then
    Except.ok ()
  else
    Except.error (OrmError.assertionError
      "Each type in args must be str, int, float, ContractingDecimal, or bool.")

/-- The per-schema-argument loop of `write_event` (orm.py lines
181-187): each schema argument must be present in the data and its value
an instance of one of the declared kinds; the error names the
argument. -/
def checkEventArgs : Schema → KVList → Except OrmError Unit
  | [], _ => Except.ok ()
  | a :: rest, data =>
    match alLookup data a.1 with
    | Option.none =>
      Except.error (OrmError.assertionError
        ("Argument " ++ a.1 ++ " is missing from the data dictionary."))
    | Option.some v =>
      if a.2.types.any (fun t => vinst v t) then checkEventArgs rest data
      else
        Except.error (OrmError.assertionError
          ("Argument " ++ a.1 ++ " is the wrong type!"))

/-- `self._args[arg]`: dict lookup in the schema. -/
def alSpecGet : Schema → String → Option ArgSpec
  | [], _ => Option.none
  | a :: rest, k => if a.1 = k then Option.some a.2 else alSpecGet rest k

/-- The indexed (or non-indexed) partition of the event data per schema
(orm.py lines 194-195): schema arguments with the requested `idx` flag,
paired with their data values.  The `Val.none` fallback is unreachable
when the presence check has passed. -/
def eventPartition (args : Schema) (data : KVList) (wantIdx : Bool) :
    List (String × Val) :=
  (args.filter (fun a => a.2.idx = wantIdx)).map
    (fun a => (a.1,
      match alLookup data a.1 with
      | Option.some v => v
      | Option.none => Val.none))

/-- The redundant re-assertion pass over a partition (orm.py lines
200-207): each pair's value is re-checked against its schema entry. -/
def recheckEvent (args : Schema) : List (String × Val) → String → Except OrmError Unit
  | [], _ => Except.ok ()
  | (nm, v) :: rest, kind =>
    match alSpecGet args nm with
    | Option.none => recheckEvent args rest kind
    | Option.some sp =>
      if sp.types.any (fun t => vinst v t) then recheckEvent args rest kind
      else
        Except.error (OrmError.assertionError
          (kind ++ " argument " ++ nm ++ " is the wrong type!"))

/-- The structured event record (orm.py lines 189-196): contract, event
name, signer and caller from the ambient execution context, and the
indexed / non-indexed partition of the data per schema. -/
structure EventRecord where
  contract : String
  event : String
  signer : String
  caller : String
  indexed_args : List (String × Val)
  non_indexed_args : List (String × Val)
deriving DecidableEq, Repr

/-- `LogEvent.write_event` (orm.py lines 177-208): argument-count check,
per-argument presence and kind checks, record construction, the
redundant re-assertions over both partitions, then the emission.  The
metering hook (`rt.deduct_write` over `encode_kv` pairs) and the event
log (`driver.set_event`) are external collaborators; the produced record
is returned. -/
def write_event (contract name : String) (args : Schema) (signer caller : String)
    (data : KVList) : Except OrmError EventRecord :=
  if data.length ≠ args.length then
    Except.error (OrmError.assertionError
      "Data must have the same number of arguments as specified in the event.")
  else
    match checkEventArgs args data with
    | Except.error e => Except.error e
    | Except.ok _ =>
      match recheckEvent args (eventPartition args data true) "Indexed" with
      | Except.error e => Except.error e
      | Except.ok _ =>
        match recheckEvent args (eventPartition args data false) "Non-indexed" with
        | Except.error e => Except.error e
        | Except.ok _ =>
          Except.ok ⟨contract, name, signer, caller,
            eventPartition args data true, eventPartition args data false⟩

theorem checkEventArgs_ok_all (args : Schema) (data : KVList)
    (h : checkEventArgs args data = Except.ok ()) :
    ∀ a ∈ args, ∃ v, alLookup data a.1 = Option.some v ∧
      a.2.types.any (fun t => vinst v t) = true := by
  induction args with
  | nil => intro a ha; exact absurd ha (List.not_mem_nil a)
  | cons a0 rest ih =>
    intro a ha
    cases hl : alLookup data a0.1 with
    | none =>
      simp only [checkEventArgs, hl] at h
      cases h
    | some v =>
      simp only [checkEventArgs, hl] at h
      by_cases hany : a0.2.types.any (fun t => vinst v t) = true
      · rw [if_pos hany] at h
        rcases List.mem_cons.mp ha with h1 | h1
        · subst h1
          exact ⟨v, hl, hany⟩
        · exact ih h a h1
      · rw [if_neg hany] at h
        cases h

theorem alSpecGet_mem (args : Schema) (nm : String) (sp : ArgSpec)
    (h : alSpecGet args nm = Option.some sp) : (nm, sp) ∈ args := by
  induction args with
  | nil => rw [alSpecGet] at h; cases h
  | cons a rest ih =>
    rw [alSpecGet] at h
    by_cases ha : a.1 = nm
    · rw [if_pos ha] at h
      cases h
      subst ha
      exact List.mem_cons_self a rest
    · rw [if_neg ha] at h
      exact List.mem_cons_of_mem a (ih h)

theorem recheckEvent_ok (args : Schema) (pairs : List (String × Val)) (kind : String)
    (h : ∀ p ∈ pairs, ∀ sp, alSpecGet args p.1 = Option.some sp →
      sp.types.any (fun t => vinst p.2 t) = true) :
    recheckEvent args pairs kind = Except.ok () := by
  induction pairs with
  | nil => rfl
  | cons p rest ih =>
    have hrest : ∀ p0 ∈ rest, ∀ sp, alSpecGet args p0.1 = Option.some sp →
        sp.types.any (fun t => vinst p0.2 t) = true :=
      fun p0 hp0 sp hsp => h p0 (List.mem_cons_of_mem p hp0) sp hsp
    cases p with
    | mk nm v =>
      cases hs : alSpecGet args nm with
      | none => simpa [recheckEvent, hs] using ih hrest
      | some sp =>
        have hpass := h (nm, v) (List.mem_cons_self (nm, v) rest) sp hs
        simp only at hpass
        simp only [recheckEvent, hs]
        rw [if_pos hpass]
        exact ih hrest

theorem eventPartition_value (args : Schema) (data : KVList) (b : Bool)
    (p : String × Val) (hp : p ∈ eventPartition args data b) :
    (∃ sp, (p.1, sp) ∈ args) ∧
    p.2 = (match alLookup data p.1 with
           | Option.some v => v
           | Option.none => Val.none) := by
  rcases List.mem_map.mp hp with ⟨a, ha, hpa⟩
  have ha0 : a ∈ args := (List.mem_filter.mp ha).1
  constructor
  · refine ⟨a.2, ?_⟩
    have h1 : p.1 = a.1 := by rw [← hpa]
    rw [h1]
    exact ha0
  · rw [← hpa]

theorem checkEventArgs_first_bad (args : Schema) (data : KVList)
    (hpres : ∀ a ∈ args, (alLookup data a.1).isSome = true)
    (hbad : ∃ a ∈ args, ∃ v, alLookup data a.1 = Option.some v ∧
      a.2.types.any (fun t => vinst v t) = false) :
    ∃ nm, (∃ a ∈ args, a.1 = nm) ∧
      checkEventArgs args data =
        Except.error (OrmError.assertionError
          ("Argument " ++ nm ++ " is the wrong type!")) := by
  induction args with
  | nil =>
    rcases hbad with ⟨a, ha, _⟩
    exact absurd ha (List.not_mem_nil a)
  | cons a0 rest ih =>
    cases hl : alLookup data a0.1 with
    | none =>
      have := hpres a0 (List.mem_cons_self a0 rest)
      rw [hl] at this
      cases this
    | some v =>
      by_cases hany : a0.2.types.any (fun t => vinst v t) = true
      · have hrestpres : ∀ a ∈ rest, (alLookup data a.1).isSome = true :=
          fun a ha => hpres a (List.mem_cons_of_mem a0 ha)
        have hrestbad : ∃ a ∈ rest, ∃ v0, alLookup data a.1 = Option.some v0 ∧
            a.2.types.any (fun t => vinst v0 t) = false := by
          rcases hbad with ⟨a, ha, v0, hv0, hf⟩
          rcases List.mem_cons.mp ha with h1 | h1
          · subst h1
            rw [hl] at hv0
            cases hv0
            rw [hany] at hf
            cases hf
          · exact ⟨a, h1, v0, hv0, hf⟩
        rcases ih hrestpres hrestbad with ⟨nm, ⟨a, ha, hnm⟩, herr⟩
        refine ⟨nm, ⟨a, List.mem_cons_of_mem a0 ha, hnm⟩, ?_⟩
        simp only [checkEventArgs, hl]
        rw [if_pos hany]
        exact herr
      · refine ⟨a0.1, ⟨a0, List.mem_cons_self a0 rest, rfl⟩, ?_⟩
        simp only [checkEventArgs, hl]
        rw [if_neg hany]

/-- C8: event schema enforcement.  Construction fails on an empty
schema, on more than three indexed arguments, and on a declared kind
outside the allowed set; emission fails on an argument-count mismatch,
on a schema argument missing from the data, and — naming the offending
argument — on a present value whose runtime kind is not among that
argument's allowed kinds; on success the record carries contract, event
name, signer, caller, and the indexed / non-indexed partition per
schema. -/
theorem C8_event_schema_enforcement (contract name signer caller : String)
    (args : Schema) (data : KVList) :
    (logEventInit [] = Except.error
      (OrmError.assertionError "Args must have at least one argument.")) ∧
    (3 < (args.filter (fun a => a.2.idx)).length → (logEventInit args).isOk = false) ∧
    ((∃ a ∈ args, ∃ t ∈ a.2.types, allowedType t = false) →
      (logEventInit args).isOk = false) ∧
    (data.length ≠ args.length →
      write_event contract name args signer caller data =
        Except.error (OrmError.assertionError
          "Data must have the same number of arguments as specified in the event.")) ∧
    ((∃ a ∈ args, alLookup data a.1 = Option.none) →
      (write_event contract name args signer caller data).isOk = false) ∧
    (data.length = args.length →
      (∀ a ∈ args, (alLookup data a.1).isSome = true) →
      (∃ a ∈ args, ∃ v, alLookup data a.1 = Option.some v ∧
        a.2.types.any (fun t => vinst v t) = false) →
      ∃ nm, (∃ a ∈ args, a.1 = nm) ∧
        write_event contract name args signer caller data =
          Except.error (OrmError.assertionError
            ("Argument " ++ nm ++ " is the wrong type!"))) ∧
    (data.length = args.length →
      checkEventArgs args data = Except.ok () →
      write_event contract name args signer caller data =
        Except.ok ⟨contract, name, signer, caller,
          eventPartition args data true, eventPartition args data false⟩) := by
  refine ⟨rfl, ?_, ?_, ?_, ?_, ?_, ?_⟩
  · intro h3
    by_cases hz : args.length = 0
    · simp [logEventInit, hz, Except.isOk, Except.toBool]
    · simp [logEventInit, hz, h3, Except.isOk, Except.toBool]
  · intro hx
    have hall : args.all (fun a => a.2.types.all allowedType) = false := by
      rcases hx with ⟨a, ha, t, ht, hf⟩
      cases hh : args.all (fun a => a.2.types.all allowedType) with
      | false => rfl
      | true =>
        have h1 := List.all_eq_true.mp hh a ha
        have h2 := List.all_eq_true.mp h1 t ht
        rw [hf] at h2
        cases h2
    by_cases hz : args.length = 0
    · simp [logEventInit, hz, Except.isOk, Except.toBool]
    · by_cases hidx : 3 < (args.filter (fun a => a.2.idx)).length
      · simp [logEventInit, hz, hidx, Except.isOk, Except.toBool]
      · simp [logEventInit, hz, hidx, hall, Except.isOk, Except.toBool]
  · intro hlen
    simp [write_event, hlen]
  · intro hmiss
    by_cases hlen : data.length ≠ args.length
    · simp [write_event, hlen, Except.isOk, Except.toBool]
    · cases hce : checkEventArgs args data with
      | error e =>
        simp [write_event, hlen, hce, Except.isOk, Except.toBool]
      | ok u =>
        cases u
        rcases hmiss with ⟨a, ha, hnone⟩
        rcases checkEventArgs_ok_all args data hce a ha with ⟨v, hv, _⟩
        rw [hnone] at hv
        cases hv
  · intro hlen hpres hbad
    rcases checkEventArgs_first_bad args data hpres hbad with ⟨nm, hnm, herr⟩
    exact ⟨nm, hnm, by simp [write_event, hlen, herr]⟩
  · intro hlen hok
    have hpart : ∀ b : Bool, ∀ p ∈ eventPartition args data b, ∀ sp,
        alSpecGet args p.1 = Option.some sp →
        sp.types.any (fun t => vinst p.2 t) = true := by
      intro b p hp sp hsp
      rcases eventPartition_value args data b p hp with ⟨_, hpv⟩
      have hmem := alSpecGet_mem args p.1 sp hsp
      rcases checkEventArgs_ok_all args data hok (p.1, sp) hmem with ⟨v, hv, hany⟩
      simp only at hv hany
      rw [hpv, hv]
      exact hany
    have hr1 := recheckEvent_ok args (eventPartition args data true) "Indexed"
      (hpart true)
    have hr2 := recheckEvent_ok args (eventPartition args data false) "Non-indexed"
      (hpart false)
    simp [write_event, hlen, hok, hr1, hr2]

theorem C8_event_schema_enforcement_witness :
    write_event "currency" "Transfer"
      [("from", ⟨[PyType.str], true⟩), ("to", ⟨[PyType.str], true⟩),
       ("amount", ⟨[PyType.int, PyType.float, PyType.dec], false⟩)]
      "alice" "bob"
      [("from", Val.str "alice"), ("to", Val.str "bob"), ("amount", Val.int 5)] =
    Except.ok ⟨"currency", "Transfer", "alice", "bob",
      eventPartition
        [("from", ⟨[PyType.str], true⟩), ("to", ⟨[PyType.str], true⟩),
         ("amount", ⟨[PyType.int, PyType.float, PyType.dec], false⟩)]
        [("from", Val.str "alice"), ("to", Val.str "bob"), ("amount", Val.int 5)] true,
      eventPartition
        [("from", ⟨[PyType.str], true⟩), ("to", ⟨[PyType.str], true⟩),
         ("amount", ⟨[PyType.int, PyType.float, PyType.dec], false⟩)]
        [("from", Val.str "alice"), ("to", Val.str "bob"), ("amount", Val.int 5)] false⟩ :=
  (C8_event_schema_enforcement "currency" "Transfer" "alice" "bob"
    [("from", ⟨[PyType.str], true⟩), ("to", ⟨[PyType.str], true⟩),
     ("amount", ⟨[PyType.int, PyType.float, PyType.dec], false⟩)]
    [("from", Val.str "alice"), ("to", Val.str "bob"), ("amount", Val.int 5)]
    ).2.2.2.2.2.2 rfl rfl
